import Mathlib

/-!
# Verification of the uwuzu client's polling/pagination/dedup/dispatch core

This file gives a shallow embedding of the two core functions of the
`uwuzu.py` client library — `Uwuzu.iter_timeline` (the Page Walker) and
`Uwuzu.watch_timeline` (the Poll Scheduler / Dedup Tracker / Dispatcher) —
and proves the spec's testable properties about them.

The Feed Source (`get_timeline`) is an external collaborator; it is modelled
as a function from (limit, page) to the returned list of posts, or, for the
live poll loop, as a per-cycle outcome (a post list, or a `FeedUnavailable`
failure).  A `Post` is opaque beyond its stable identifier (`uniqid`).
Timed suspensions (`time.sleep`) and handler invocations are recorded as
explicit events in a trace, so that temporal claims (what happens in which
order, how many remote calls are made) become claims about the trace.
-/

set_option autoImplicit false

namespace Uwuzu

/-- An item of the feed: opaque to the core beyond its stable unique
identifier (the `uniqid` field exposed by `Post.id`). -/
structure Post where
  id : String
  deriving DecidableEq, Repr, Inhabited

/-! ## Page Walker: `iter_timeline`

```python
def iter_timeline(self, limit_per_request: int = 25, max_pages: int = 10):
    for page in range(1, max_pages + 1):
        posts = self.get_timeline(limit=limit_per_request, page=page)
        if not posts:
            break
        for post in posts:
            yield post
        time.sleep(0.5)
```

The traversal is modelled as the trace of observable events produced by a
full consumption of the generator: Feed Source calls, yielded posts, and
courtesy sleeps (with their duration in time units). -/

/-- Observable events of one Page Walker traversal. -/
inductive WalkEvent where
  | fetch (page : Nat)
  | yieldPost (p : Post)
  | sleep (duration : ℚ)
  deriving DecidableEq, Repr, Inhabited

/-- The loop body of `iter_timeline`, with the remaining iteration count of
`range(1, max_pages + 1)` made explicit as `fuel`.  Each iteration fetches
`feed limit page`; an empty page breaks out of the loop, a non-empty page
yields its posts in order and then sleeps `0.5` before the next call. -/
def iterTimelineAux (feed : Int → Nat → List Post) (limit : Int) (page : Nat) :
    Nat → List WalkEvent
  | 0 => []
  | fuel + 1 =>
    let posts := feed limit page
    WalkEvent.fetch page ::
      (if posts.isEmpty then []
       else posts.map WalkEvent.yieldPost ++
         WalkEvent.sleep (1 / 2) :: iterTimelineAux feed limit (page + 1) fuel)

/-- `Uwuzu.iter_timeline`: pages run over `range(1, max_pages + 1)`,
i.e. `max_pages.toNat` iterations starting at page 1. -/
def iter_timeline (feed : Int → Nat → List Post) (limit_per_request : Int)
    (max_pages : Int) : List WalkEvent :=
  iterTimelineAux feed limit_per_request 1 max_pages.toNat

/-- The pages passed to the Feed Source by a traversal, in call order. -/
def fetchPages (tr : List WalkEvent) : List Nat :=
  tr.filterMap fun e => match e with
    | WalkEvent.fetch p => some p
    | _ => none

/-- The posts yielded by a traversal, in yield order. -/
def yieldedPosts (tr : List WalkEvent) : List Post :=
  tr.filterMap fun e => match e with
    | WalkEvent.yieldPost p => some p
    | _ => none

/-- Whether an event is a Feed Source call. -/
def isFetch : WalkEvent → Bool
  | WalkEvent.fetch _ => true
  | _ => false

/-- Whether an event is a courtesy sleep. -/
def isSleep : WalkEvent → Bool
  | WalkEvent.sleep _ => true
  | _ => false

/-- Whether an optional event is a yielded post. -/
def isYieldOfPost : Option WalkEvent → Bool
  | some (WalkEvent.yieldPost _) => true
  | _ => false

/-! ## Poll Scheduler: `watch_timeline`

```python
def watch_timeline(self, interval: int = 60, callback=None):
    seen_ids = set()
    first_run = True
    while True:
        try:
            posts = self.get_timeline(limit=10)
            if first_run:
                seen_ids = {p.id for p in posts}
                first_run = False
            else:
                new_posts = [p for p in posts if p.id not in seen_ids]
                for post in reversed(new_posts):
                    seen_ids.add(post.id)
                    if callback:
                        callback(post)
        except Exception as e:
            print(f"Watch Error: {e}")
        time.sleep(interval)
```

One iteration of the `while True` loop is a *poll cycle*.  Its external
input is the outcome of `get_timeline(limit=10)` (a post list, or a raised
`FeedUnavailable`/`UwuzuError`) together with the behaviour of the
user-supplied callback on each post (whether it returns normally or
raises).  The callback is modelled as supplied (`callback` truthy); the
mutating loop records an `admit` event for each `seen_ids.add` and an
`invoke` event for each `callback(post)` call.  A callback exception is not
caught inside the `for` loop: it aborts the remaining iterations and is
caught by the cycle-level `except`, which logs it. -/

/-- Observable events of the dispatch loop of one poll cycle. -/
inductive DispatchEvent where
  | admitId (id : String)
  | invoke (p : Post)
  deriving DecidableEq, Repr, Inhabited

/-- Scheduler state: the SeenSet and the first-run flag. -/
structure WatchState where
  seen_ids : Finset String
  first_run : Bool
  deriving DecidableEq

/-- Outcome of the cycle's `get_timeline(limit=10)` call. -/
inductive FetchOutcome where
  | ok (posts : List Post)
  | err
  deriving DecidableEq, Repr, Inhabited

/-- External input of one poll cycle: the Feed Source outcome and, for each
post, whether the user callback returns normally (`true`) or raises. -/
structure CycleInput where
  fetch : FetchOutcome
  handlerOk : Post → Bool

/-- Result of the `for post in reversed(new_posts)` loop. -/
structure DispatchResult where
  seen_ids : Finset String
  events : List DispatchEvent
  raised : Bool
  deriving DecidableEq

/-- The dispatch loop, applied to the already-reversed candidate list:
for each post, `seen_ids.add(post.id)` then `callback(post)`; a callback
exception stops the loop and propagates (to the cycle-level `except`). -/
def dispatchReversed (handlerOk : Post → Bool) :
    Finset String → List Post → DispatchResult
  | seen, [] => ⟨seen, [], false⟩
  | seen, p :: rest =>
    let seen2 := insert p.id seen
    if handlerOk p then
      let r := dispatchReversed handlerOk seen2 rest
      ⟨r.seen_ids, DispatchEvent.admitId p.id :: DispatchEvent.invoke p :: r.events,
        r.raised⟩
    else
      ⟨seen2, [DispatchEvent.admitId p.id, DispatchEvent.invoke p], true⟩

/-- Observable record of one poll cycle: the dispatch events, whether a
`Watch Error` was logged by the cycle-level `except`, and the duration of
the unconditional `time.sleep(interval)` ending the cycle. -/
structure CycleLog where
  events : List DispatchEvent
  errorLogged : Bool
  slept : Int
  deriving DecidableEq

/-- One poll cycle of `watch_timeline`. -/
def watchCycle (interval : Int) (st : WatchState) (inp : CycleInput) :
    WatchState × CycleLog :=
  match inp.fetch with
  | FetchOutcome.err => (st, ⟨[], true, interval⟩)
  | FetchOutcome.ok posts =>
    if st.first_run then
      (⟨(posts.map Post.id).toFinset, false⟩, ⟨[], false, interval⟩)
    else
      let new_posts := posts.filter fun p => decide (p.id ∉ st.seen_ids)
      let r := dispatchReversed inp.handlerOk st.seen_ids new_posts.reverse
      (⟨r.seen_ids, false⟩, ⟨r.events, r.raised, interval⟩)

/-- A run of successive poll cycles from a given state, returning the final
state and the per-cycle logs.  The `while True` loop itself never
terminates on its own (every exception is caught), so a finite run is just
an observation of finitely many cycles. -/
def watchRun (interval : Int) (st : WatchState) :
    List CycleInput → WatchState × List CycleLog
  | [] => (st, [])
  | inp :: rest =>
    let c := watchCycle interval st inp
    let r := watchRun interval c.1 rest
    (r.1, c.2 :: r.2)

/-- `Uwuzu.watch_timeline`: a run from the initial state
(`seen_ids = set()`, `first_run = True`). -/
def watch_timeline (interval : Int) (inputs : List CycleInput) :
    WatchState × List CycleLog :=
  watchRun interval ⟨∅, true⟩ inputs

/-- The posts passed to the callback in a list of dispatch events. -/
def invokedPosts (evs : List DispatchEvent) : List Post :=
  evs.filterMap fun e => match e with
    | DispatchEvent.invoke p => some p
    | _ => none

/-- The identifiers passed to the callback, in invocation order. -/
def invokedIds (evs : List DispatchEvent) : List String :=
  (invokedPosts evs).map Post.id

/-- All identifiers passed to the callback over a whole run, in order. -/
def runInvokedIds (logs : List CycleLog) : List String :=
  (logs.map fun l => invokedIds l.events).flatten

/-- The log of the `i`-th poll cycle of a run (an empty, error-free log
past the end of the observation). -/
def cycleLogAt (interval : Int) (inputs : List CycleInput) (i : Nat) : CycleLog :=
  (watch_timeline interval inputs).2.getD i ⟨[], false, interval⟩

/-- The scheduler state after the first `n` poll cycles. -/
def stateAfter (interval : Int) (inputs : List CycleInput) (n : Nat) : WatchState :=
  (watchRun interval ⟨∅, true⟩ (inputs.take n)).1

/-! ## Page Walker lemmas -/

theorem iterTimelineAux_zero (feed : Int → Nat → List Post) (limit : Int) (page : Nat) :
    iterTimelineAux feed limit page 0 = [] := rfl

theorem iterTimelineAux_succ_empty (feed : Int → Nat → List Post) (limit : Int)
    (page fuel : Nat) (h : feed limit page = []) :
    iterTimelineAux feed limit page (fuel + 1) = [WalkEvent.fetch page] := by
  simp [iterTimelineAux, h]

theorem iterTimelineAux_succ_cons (feed : Int → Nat → List Post) (limit : Int)
    (page fuel : Nat) (h : feed limit page ≠ []) :
    iterTimelineAux feed limit page (fuel + 1) =
      WalkEvent.fetch page :: ((feed limit page).map WalkEvent.yieldPost ++
        WalkEvent.sleep (1 / 2) :: iterTimelineAux feed limit (page + 1) fuel) := by
  simp only [iterTimelineAux, List.isEmpty_iff, if_neg h]

@[simp] theorem fetchPages_nil : fetchPages [] = [] := rfl

@[simp] theorem fetchPages_cons_fetch (p : Nat) (tr : List WalkEvent) :
    fetchPages (WalkEvent.fetch p :: tr) = p :: fetchPages tr := rfl

@[simp] theorem fetchPages_cons_yield (q : Post) (tr : List WalkEvent) :
    fetchPages (WalkEvent.yieldPost q :: tr) = fetchPages tr := rfl

@[simp] theorem fetchPages_cons_sleep (d : ℚ) (tr : List WalkEvent) :
    fetchPages (WalkEvent.sleep d :: tr) = fetchPages tr := rfl

@[simp] theorem fetchPages_append (a b : List WalkEvent) :
    fetchPages (a ++ b) = fetchPages a ++ fetchPages b :=
  List.filterMap_append _ _ _

@[simp] theorem fetchPages_map_yield (ps : List Post) :
    fetchPages (ps.map WalkEvent.yieldPost) = [] := by
  induction ps with
  | nil => rfl
  | cons p rest ih => simpa using ih

@[simp] theorem yieldedPosts_nil : yieldedPosts [] = [] := rfl

@[simp] theorem yieldedPosts_cons_fetch (p : Nat) (tr : List WalkEvent) :
    yieldedPosts (WalkEvent.fetch p :: tr) = yieldedPosts tr := rfl

@[simp] theorem yieldedPosts_cons_yield (q : Post) (tr : List WalkEvent) :
    yieldedPosts (WalkEvent.yieldPost q :: tr) = q :: yieldedPosts tr := rfl

@[simp] theorem yieldedPosts_cons_sleep (d : ℚ) (tr : List WalkEvent) :
    yieldedPosts (WalkEvent.sleep d :: tr) = yieldedPosts tr := rfl

@[simp] theorem yieldedPosts_append (a b : List WalkEvent) :
    yieldedPosts (a ++ b) = yieldedPosts a ++ yieldedPosts b :=
  List.filterMap_append _ _ _

@[simp] theorem yieldedPosts_map_yield (ps : List Post) :
    yieldedPosts (ps.map WalkEvent.yieldPost) = ps := by
  induction ps with
  | nil => rfl
  | cons p rest ih => simpa using ih

theorem fetchPages_iterTimelineAux_length (feed : Int → Nat → List Post) (limit : Int)
    (fuel : Nat) : ∀ page : Nat,
    (fetchPages (iterTimelineAux feed limit page fuel)).length ≤ fuel := by
  induction fuel with
  | zero => intro page; simp [iterTimelineAux_zero]
  | succ n ih =>
    intro page
    by_cases h : feed limit page = []
    · simp [iterTimelineAux_succ_empty feed limit page n h]
    · simp only [iterTimelineAux_succ_cons feed limit page n h, fetchPages_cons_fetch,
        fetchPages_append, fetchPages_map_yield, fetchPages_cons_sleep,
        List.nil_append, List.length_cons]
      exact Nat.succ_le_succ (ih (page + 1))

theorem iterTimelineAux_eq_single (feed : Int → Nat → List Post) (limit : Int)
    (page fuel k : Nat) (hf : fuel = k + 1) (h : feed limit page = []) :
    iterTimelineAux feed limit page fuel = [WalkEvent.fetch page] := by
  subst hf; exact iterTimelineAux_succ_empty feed limit page k h

theorem iterTimelineAux_eq_cons (feed : Int → Nat → List Post) (limit : Int)
    (page fuel k : Nat) (hf : fuel = k + 1) (h : feed limit page ≠ []) :
    iterTimelineAux feed limit page fuel =
      WalkEvent.fetch page :: ((feed limit page).map WalkEvent.yieldPost ++
        WalkEvent.sleep (1 / 2) :: iterTimelineAux feed limit (page + 1) k) := by
  subst hf; exact iterTimelineAux_succ_cons feed limit page k h

/-- C6: a Page Walker traversal against a Feed Source returning pages of
sizes 25, 25, 10, 0 with `max_pages = 10` makes exactly the four Feed
Source calls for pages 1, 2, 3, 4 (in particular no 5th call: it
terminates on the first empty page) and yields exactly 60 items. -/
theorem iter_timeline_exhaustion_termination (feed : Int → Nat → List Post)
    (limit : Int) (h1 : (feed limit 1).length = 25) (h2 : (feed limit 2).length = 25)
    (h3 : (feed limit 3).length = 10) (h4 : feed limit 4 = []) :
    fetchPages (iter_timeline feed limit 10) = [1, 2, 3, 4] ∧
      (yieldedPosts (iter_timeline feed limit 10)).length = 60 := by
  have e1 : feed limit 1 ≠ [] := by intro h; rw [h] at h1; simp at h1
  have e2 : feed limit (1 + 1) ≠ [] := by intro h; rw [h] at h2; simp at h2
  have e3 : feed limit (1 + 1 + 1) ≠ [] := by intro h; rw [h] at h3; simp at h3
  have e4 : feed limit (1 + 1 + 1 + 1) = [] := h4
  have T : iter_timeline feed limit 10 = iterTimelineAux feed limit 1 10 := rfl
  rw [T, iterTimelineAux_eq_cons feed limit 1 10 9 rfl e1,
    iterTimelineAux_eq_cons feed limit (1 + 1) 9 8 rfl e2,
    iterTimelineAux_eq_cons feed limit (1 + 1 + 1) 8 7 rfl e3,
    iterTimelineAux_eq_single feed limit (1 + 1 + 1 + 1) 7 6 rfl e4]
  refine ⟨by norm_num, ?_⟩
  simp only [yieldedPosts_cons_fetch, yieldedPosts_append, yieldedPosts_map_yield,
    yieldedPosts_cons_sleep, yieldedPosts_nil, List.length_append, h1, h2, h3]
  norm_num

/-- A concrete Feed Source with page sizes 25, 25, 10, 0, 0, …. -/
def exhaustingFeed : Int → Nat → List Post := fun _ p =>
  if p ≤ 2 then List.replicate 25 ⟨"x"⟩
  else if p = 3 then List.replicate 10 ⟨"x"⟩ else []

/-- A concrete Feed Source returning a full page of 25 items everywhere. -/
def endlessFeed : Int → Nat → List Post := fun _ _ => List.replicate 25 ⟨"x"⟩

/-- C6 witness: a concrete Feed Source with page sizes 25, 25, 10, 0. -/
theorem iter_timeline_exhaustion_termination_witness :
    fetchPages (iter_timeline exhaustingFeed 25 10) = [1, 2, 3, 4] ∧
      (yieldedPosts (iter_timeline exhaustingFeed 25 10)).length = 60 :=
  iter_timeline_exhaustion_termination exhaustingFeed 25 rfl rfl rfl rfl

/-- C7: a Page Walker traversal against a Feed Source returning a full
page of 25 items for every requested page, with `max_pages = 3`, makes
exactly the three Feed Source calls for pages 1, 2, 3 and yields exactly
75 items; moreover for every Feed Source and every `max_pages`, the
traversal makes at most `max_pages` Feed Source calls. -/
theorem iter_timeline_page_cap (feed : Int → Nat → List Post) (limit : Int)
    (h : ∀ p : Nat, 1 ≤ p → p ≤ 3 → (feed limit p).length = 25) :
    fetchPages (iter_timeline feed limit 3) = [1, 2, 3] ∧
      (yieldedPosts (iter_timeline feed limit 3)).length = 75 ∧
      ∀ (g : Int → Nat → List Post) (l m : Int),
        (fetchPages (iter_timeline g l m)).length ≤ m.toNat := by
  have h1 : (feed limit 1).length = 25 := h 1 (by norm_num) (by norm_num)
  have h2 : (feed limit (1 + 1)).length = 25 := h 2 (by norm_num) (by norm_num)
  have h3 : (feed limit (1 + 1 + 1)).length = 25 := h 3 (by norm_num) (by norm_num)
  have e1 : feed limit 1 ≠ [] := by intro hh; rw [hh] at h1; simp at h1
  have e2 : feed limit (1 + 1) ≠ [] := by intro hh; rw [hh] at h2; simp at h2
  have e3 : feed limit (1 + 1 + 1) ≠ [] := by intro hh; rw [hh] at h3; simp at h3
  have T : iter_timeline feed limit 3 = iterTimelineAux feed limit 1 3 := rfl
  rw [T, iterTimelineAux_eq_cons feed limit 1 3 2 rfl e1,
    iterTimelineAux_eq_cons feed limit (1 + 1) 2 1 rfl e2,
    iterTimelineAux_eq_cons feed limit (1 + 1 + 1) 1 0 rfl e3,
    iterTimelineAux_zero]
  refine ⟨by norm_num, ?_, ?_⟩
  · simp only [yieldedPosts_cons_fetch, yieldedPosts_append, yieldedPosts_map_yield,
      yieldedPosts_cons_sleep, yieldedPosts_nil, List.length_append, h1, h2, h3]
    norm_num
  · intro g l m
    exact fetchPages_iterTimelineAux_length g l m.toNat 1

/-- C7 witness: a concrete Feed Source returning a full page everywhere. -/
theorem iter_timeline_page_cap_witness :
    fetchPages (iter_timeline endlessFeed 25 3) = [1, 2, 3] ∧
      (yieldedPosts (iter_timeline endlessFeed 25 3)).length = 75 :=
  ⟨(iter_timeline_page_cap endlessFeed 25 (fun _ _ _ => rfl)).1,
    (iter_timeline_page_cap endlessFeed 25 (fun _ _ _ => rfl)).2.1⟩

/-- C10: calling `iter_timeline` with `max_pages ≤ 0` produces the empty
traversal: no Feed Source call is made and no item is yielded. -/
theorem iter_timeline_nonpos_max_pages (feed : Int → Nat → List Post) (limit : Int)
    (m : Int) (hm : m ≤ 0) :
    iter_timeline feed limit m = [] ∧ fetchPages (iter_timeline feed limit m) = [] ∧
      yieldedPosts (iter_timeline feed limit m) = [] := by
  have h0 : m.toNat = 0 := Int.toNat_of_nonpos hm
  unfold iter_timeline
  rw [h0]
  exact ⟨rfl, rfl, rfl⟩

/-- C10 witness: `max_pages = -3` against a never-empty Feed Source. -/
theorem iter_timeline_nonpos_max_pages_witness :
    iter_timeline (fun _ _ => [⟨"x"⟩]) 25 (-3) = [] ∧
      fetchPages (iter_timeline (fun _ _ => [⟨"x"⟩]) 25 (-3)) = [] ∧
      yieldedPosts (iter_timeline (fun _ _ => [⟨"x"⟩]) 25 (-3)) = [] :=
  iter_timeline_nonpos_max_pages _ 25 (-3) (by norm_num)

theorem getLast?_cons_of_ne {α : Type _} (a : α) (l : List α) (h : l ≠ []) :
    (a :: l).getLast? = l.getLast? :=
  List.getLast?_append_of_ne_nil [a] h

theorem isYieldOfPost_getLast?_map : ∀ ps : List Post, ps ≠ [] →
    isYieldOfPost ((ps.map WalkEvent.yieldPost).getLast?) = true
  | [], h => absurd rfl h
  | [_], _ => rfl
  | _ :: q :: rest, _ => by
    rw [List.map_cons, getLast?_cons_of_ne _ _ (by simp)]
    exact isYieldOfPost_getLast?_map (q :: rest) (by simp)

/-- Pause placement in a Page Walker trace, by induction on the remaining
iteration count: every Feed Source call other than the first is immediately
preceded by a courtesy sleep of `0.5`, and every sleep has duration `0.5`
and immediately follows a yielded item of a non-empty page. -/
theorem iterTimelineAux_pause_split (feed : Int → Nat → List Post) (limit : Int) :
    ∀ (fuel page : Nat) (l1 : List WalkEvent) (e : WalkEvent) (l2 : List WalkEvent),
    iterTimelineAux feed limit page fuel = l1 ++ e :: l2 →
    (isFetch e = true → l1 = [] ∨ l1.getLast? = some (WalkEvent.sleep (1 / 2))) ∧
      (isSleep e = true →
        e = WalkEvent.sleep (1 / 2) ∧ isYieldOfPost l1.getLast? = true) := by
  intro fuel
  induction fuel with
  | zero =>
    intro page l1 e l2 h
    rw [iterTimelineAux_zero] at h
    cases l1 <;> simp at h
  | succ n ih =>
    intro page l1 e l2 h
    by_cases hp : feed limit page = []
    · rw [iterTimelineAux_succ_empty feed limit page n hp] at h
      cases l1 with
      | nil =>
        obtain ⟨he, -⟩ := List.cons.inj h
        refine ⟨fun _ => Or.inl rfl, fun hs => ?_⟩
        rw [← he] at hs
        simp [isSleep] at hs
      | cons a t =>
        obtain ⟨-, hn⟩ := List.cons.inj h
        exact absurd hn.symm (by simp)
    · rw [iterTimelineAux_succ_cons feed limit page n hp] at h
      have hys : (feed limit page).map WalkEvent.yieldPost ≠ [] := by
        simpa using hp
      cases l1 with
      | nil =>
        rw [List.nil_append] at h
        obtain ⟨he, -⟩ := List.cons.inj h
        refine ⟨fun _ => Or.inl rfl, fun hs => ?_⟩
        rw [← he] at hs
        simp [isSleep] at hs
      | cons a t =>
        rw [List.cons_append] at h
        obtain ⟨ha, hbody⟩ := List.cons.inj h
        rw [List.append_eq_append_iff] at hbody
        rcases hbody with ⟨a', hta, hsl⟩ | ⟨c', hyc, hel⟩
        · cases a' with
          | nil =>
            rw [List.nil_append] at hsl
            obtain ⟨he, -⟩ := List.cons.inj hsl
            rw [List.append_nil] at hta
            refine ⟨fun hf => ?_, fun _ => ⟨he.symm, ?_⟩⟩
            · rw [← he] at hf; simp [isFetch] at hf
            · subst ha hta
              rw [getLast?_cons_of_ne _ _ hys]
              exact isYieldOfPost_getLast?_map _ hp
          | cons x a2 =>
            rw [List.cons_append] at hsl
            obtain ⟨hx, htr⟩ := List.cons.inj hsl
            obtain ⟨ih1, ih2⟩ := ih (page + 1) a2 e l2 htr
            subst ha hta hx
            have hlast : (WalkEvent.fetch page ::
                ((feed limit page).map WalkEvent.yieldPost ++
                  WalkEvent.sleep (1 / 2) :: a2)).getLast? =
                (WalkEvent.sleep (1 / 2) :: a2).getLast? := by
              rw [getLast?_cons_of_ne _ _ (by simp),
                List.getLast?_append_of_ne_nil _ (by simp)]
            constructor
            · intro hf
              refine Or.inr ?_
              rw [hlast]
              rcases ih1 hf with h2 | h2
              · subst h2; rfl
              · cases a2 with
                | nil => simp at h2
                | cons b t2 => rw [getLast?_cons_of_ne _ _ (by simp)]; exact h2
            · intro hs
              obtain ⟨he, hy⟩ := ih2 hs
              refine ⟨he, ?_⟩
              rw [hlast]
              cases a2 with
              | nil => simp [isYieldOfPost] at hy
              | cons b t2 => rw [getLast?_cons_of_ne _ _ (by simp)]; exact hy
        · cases c' with
          | nil =>
            rw [List.nil_append] at hel
            obtain ⟨he, -⟩ := List.cons.inj hel
            rw [List.append_nil] at hyc
            refine ⟨fun hf => ?_, fun _ => ⟨he, ?_⟩⟩
            · rw [he] at hf; simp [isFetch] at hf
            · subst ha
              have ht : t ≠ [] := by rw [← hyc]; exact hys
              rw [getLast?_cons_of_ne _ _ ht, ← hyc]
              exact isYieldOfPost_getLast?_map _ hp
          | cons x c2 =>
            obtain ⟨hex, -⟩ := List.cons.inj hel
            have hxy : x ∈ (feed limit page).map WalkEvent.yieldPost := by
              rw [hyc]
              exact List.mem_append_right t (List.mem_cons_self x c2)
            obtain ⟨q, -, hq⟩ := List.mem_map.mp hxy
            refine ⟨fun hf => ?_, fun hs => ?_⟩
            · rw [hex, ← hq] at hf; simp [isFetch] at hf
            · rw [hex, ← hq] at hs; simp [isSleep] at hs

/-- The feed used to refute a trailing-pause-free traversal: one post on
every page. -/
def onePostFeed : Int → Nat → List Post := fun _ _ => [⟨"x"⟩]

/-- C8 counterexample: with `max_pages = 1` against a Feed Source whose
page 1 is non-empty, the traversal is `[fetch 1, yield, sleep 0.5]` — the
courtesy sleep occurs after the final Feed Source call, refuting the claim
that a pause is never executed after the final call of the traversal. -/
theorem iter_timeline_trailing_pause_counterexample :
    ¬ ∀ (l1 : List WalkEvent) (d : ℚ) (l2 : List WalkEvent),
        iter_timeline onePostFeed 10 1 = l1 ++ WalkEvent.sleep d :: l2 →
        ∃ e, e ∈ l2 ∧ isFetch e = true := by
  intro hcl
  obtain ⟨e, he, -⟩ :=
    hcl [WalkEvent.fetch 1, WalkEvent.yieldPost ⟨"x"⟩] (1 / 2) [] rfl
  simp at he

/-- C8 (amended): in every Page Walker traversal, every Feed Source call
other than the first is immediately preceded by a courtesy sleep of `0.5`
time units (so a pause of at least 0.5 separates any two successive
calls), and every sleep has duration exactly `0.5` and immediately follows
a yielded item of a non-empty page (so no pause ever occurs before the
first call); however, when the traversal ends by the page cap with a
non-empty final page, that final page's sleep falls after the final call. -/
theorem iter_timeline_pause_placement (feed : Int → Nat → List Post)
    (limit max_pages : Int) (l1 : List WalkEvent) (e : WalkEvent)
    (l2 : List WalkEvent) (h : iter_timeline feed limit max_pages = l1 ++ e :: l2) :
    (isFetch e = true → l1 = [] ∨ l1.getLast? = some (WalkEvent.sleep (1 / 2))) ∧
      (isSleep e = true →
        e = WalkEvent.sleep (1 / 2) ∧ isYieldOfPost l1.getLast? = true) :=
  iterTimelineAux_pause_split feed limit max_pages.toNat 1 l1 e l2 h

/-- C8 witness: in the two-page traversal of `onePostFeed`, the second
Feed Source call is immediately preceded by the courtesy sleep. -/
theorem iter_timeline_pause_placement_witness :
    ([WalkEvent.fetch 1, WalkEvent.yieldPost ⟨"x"⟩, WalkEvent.sleep (1 / 2)] :
        List WalkEvent) = [] ∨
      ([WalkEvent.fetch 1, WalkEvent.yieldPost ⟨"x"⟩, WalkEvent.sleep (1 / 2)] :
        List WalkEvent).getLast? = some (WalkEvent.sleep (1 / 2)) :=
  (iter_timeline_pause_placement onePostFeed 10 2
      [WalkEvent.fetch 1, WalkEvent.yieldPost ⟨"x"⟩, WalkEvent.sleep (1 / 2)]
      (WalkEvent.fetch 2) [WalkEvent.yieldPost ⟨"x"⟩, WalkEvent.sleep (1 / 2)]
      rfl).1 rfl

/-! ## Poll Scheduler lemmas -/

instance : Inhabited CycleInput := ⟨⟨FetchOutcome.err, fun _ => true⟩⟩

@[simp] theorem invokedPosts_nil : invokedPosts [] = [] := rfl

@[simp] theorem invokedPosts_cons_admitId (s : String) (evs : List DispatchEvent) :
    invokedPosts (DispatchEvent.admitId s :: evs) = invokedPosts evs := rfl

@[simp] theorem invokedPosts_cons_invoke (p : Post) (evs : List DispatchEvent) :
    invokedPosts (DispatchEvent.invoke p :: evs) = p :: invokedPosts evs := rfl

@[simp] theorem runInvokedIds_nil : runInvokedIds [] = [] := rfl

@[simp] theorem runInvokedIds_cons (log : CycleLog) (logs : List CycleLog) :
    runInvokedIds (log :: logs) = invokedIds log.events ++ runInvokedIds logs := rfl

theorem dispatchReversed_nil (handlerOk : Post → Bool) (seen : Finset String) :
    dispatchReversed handlerOk seen [] = ⟨seen, [], false⟩ := rfl

theorem dispatchReversed_cons_ok (handlerOk : Post → Bool) (seen : Finset String)
    (p : Post) (rest : List Post) (h : handlerOk p = true) :
    dispatchReversed handlerOk seen (p :: rest) =
      ⟨(dispatchReversed handlerOk (insert p.id seen) rest).seen_ids,
        DispatchEvent.admitId p.id :: DispatchEvent.invoke p ::
          (dispatchReversed handlerOk (insert p.id seen) rest).events,
        (dispatchReversed handlerOk (insert p.id seen) rest).raised⟩ := by
  simp [dispatchReversed, h]

theorem dispatchReversed_cons_bad (handlerOk : Post → Bool) (seen : Finset String)
    (p : Post) (rest : List Post) (h : handlerOk p = false) :
    dispatchReversed handlerOk seen (p :: rest) =
      ⟨insert p.id seen, [DispatchEvent.admitId p.id, DispatchEvent.invoke p], true⟩ := by
  simp [dispatchReversed, h]

theorem dispatchReversed_seen_mono (handlerOk : Post → Bool) :
    ∀ (l : List Post) (seen : Finset String),
    seen ⊆ (dispatchReversed handlerOk seen l).seen_ids := by
  intro l
  induction l with
  | nil => intro seen; rw [dispatchReversed_nil]
  | cons p rest ih =>
    intro seen
    cases h : handlerOk p with
    | true =>
      rw [dispatchReversed_cons_ok handlerOk seen p rest h]
      exact (Finset.subset_insert p.id seen).trans (ih (insert p.id seen))
    | false =>
      rw [dispatchReversed_cons_bad handlerOk seen p rest h]
      exact Finset.subset_insert p.id seen

theorem dispatchReversed_invoked_sublist (handlerOk : Post → Bool) :
    ∀ (l : List Post) (seen : Finset String),
    List.Sublist (invokedPosts (dispatchReversed handlerOk seen l).events) l := by
  intro l
  induction l with
  | nil => intro seen; rw [dispatchReversed_nil]; exact List.Sublist.refl []
  | cons p rest ih =>
    intro seen
    cases h : handlerOk p with
    | true =>
      rw [dispatchReversed_cons_ok handlerOk seen p rest h]
      simp only [invokedPosts_cons_admitId, invokedPosts_cons_invoke]
      exact List.Sublist.cons₂ p (ih (insert p.id seen))
    | false =>
      rw [dispatchReversed_cons_bad handlerOk seen p rest h]
      simp only [invokedPosts_cons_admitId, invokedPosts_cons_invoke, invokedPosts_nil]
      exact List.Sublist.cons₂ p (List.nil_sublist rest)

theorem dispatchReversed_invoked_admitted (handlerOk : Post → Bool) :
    ∀ (l : List Post) (seen : Finset String) (p : Post),
    p ∈ invokedPosts (dispatchReversed handlerOk seen l).events →
    p.id ∈ (dispatchReversed handlerOk seen l).seen_ids := by
  intro l
  induction l with
  | nil => intro seen p hp; rw [dispatchReversed_nil] at hp; simp at hp
  | cons q rest ih =>
    intro seen p hp
    cases h : handlerOk q with
    | true =>
      rw [dispatchReversed_cons_ok handlerOk seen q rest h] at hp ⊢
      simp only [invokedPosts_cons_admitId, invokedPosts_cons_invoke, List.mem_cons] at hp
      rcases hp with rfl | hp
      · exact dispatchReversed_seen_mono handlerOk rest (insert p.id seen)
          (Finset.mem_insert_self p.id seen)
      · exact ih (insert q.id seen) p hp
    | false =>
      rw [dispatchReversed_cons_bad handlerOk seen q rest h] at hp ⊢
      simp only [invokedPosts_cons_admitId, invokedPosts_cons_invoke, invokedPosts_nil,
        List.mem_singleton] at hp
      subst hp
      exact Finset.mem_insert_self p.id seen

theorem dispatchReversed_seen_from (handlerOk : Post → Bool) :
    ∀ (l : List Post) (seen : Finset String) (s : String),
    s ∈ (dispatchReversed handlerOk seen l).seen_ids →
    s ∈ seen ∨ s ∈ l.map Post.id := by
  intro l
  induction l with
  | nil => intro seen s hs; rw [dispatchReversed_nil] at hs; exact Or.inl hs
  | cons q rest ih =>
    intro seen s hs
    cases h : handlerOk q with
    | true =>
      rw [dispatchReversed_cons_ok handlerOk seen q rest h] at hs
      rcases ih (insert q.id seen) s hs with hmem | hmem
      · rcases Finset.mem_insert.mp hmem with rfl | hmem
        · exact Or.inr (by simp)
        · exact Or.inl hmem
      · exact Or.inr (by simp [hmem])
    | false =>
      rw [dispatchReversed_cons_bad handlerOk seen q rest h] at hs
      rcases Finset.mem_insert.mp hs with rfl | hmem
      · exact Or.inr (by simp)
      · exact Or.inl hmem

theorem dispatchReversed_all_ok (handlerOk : Post → Bool)
    (hok : ∀ p, handlerOk p = true) :
    ∀ (l : List Post) (seen : Finset String),
    invokedPosts (dispatchReversed handlerOk seen l).events = l := by
  intro l
  induction l with
  | nil => intro seen; rw [dispatchReversed_nil]; rfl
  | cons p rest ih =>
    intro seen
    rw [dispatchReversed_cons_ok handlerOk seen p rest (hok p)]
    simp [ih (insert p.id seen)]

theorem dispatchReversed_admit_before_invoke (handlerOk : Post → Bool) :
    ∀ (l : List Post) (seen : Finset String) (l1 : List DispatchEvent) (p : Post)
      (l2 : List DispatchEvent),
    (dispatchReversed handlerOk seen l).events = l1 ++ DispatchEvent.invoke p :: l2 →
    DispatchEvent.admitId p.id ∈ l1 := by
  intro l
  induction l with
  | nil =>
    intro seen l1 p l2 h
    rw [dispatchReversed_nil] at h
    cases l1 <;> simp at h
  | cons q rest ih =>
    intro seen l1 p l2 h
    cases hq : handlerOk q with
    | true =>
      rw [dispatchReversed_cons_ok handlerOk seen q rest hq] at h
      cases l1 with
      | nil => simp at h
      | cons a t =>
        obtain ⟨ha, ht⟩ := List.cons.inj h
        cases t with
        | nil =>
          obtain ⟨hi, -⟩ := List.cons.inj ht
          obtain rfl : q = p := DispatchEvent.invoke.inj hi
          rw [ha]
          exact List.mem_singleton.mpr (by rfl)
        | cons b t2 =>
          obtain ⟨hb, ht2⟩ := List.cons.inj ht
          exact List.mem_cons_of_mem a
            (List.mem_cons_of_mem b (ih (insert q.id seen) t2 p l2 ht2))
    | false =>
      rw [dispatchReversed_cons_bad handlerOk seen q rest hq] at h
      cases l1 with
      | nil => simp at h
      | cons a t =>
        obtain ⟨ha, ht⟩ := List.cons.inj h
        cases t with
        | nil =>
          obtain ⟨hi, -⟩ := List.cons.inj ht
          obtain rfl : q = p := DispatchEvent.invoke.inj hi
          rw [ha]
          exact List.mem_singleton.mpr (by rfl)
        | cons b t2 =>
          obtain ⟨-, ht2⟩ := List.cons.inj ht
          cases t2 <;> simp at ht2

theorem watchCycle_err (interval : Int) (st : WatchState) (inp : CycleInput)
    (h : inp.fetch = FetchOutcome.err) :
    watchCycle interval st inp = (st, ⟨[], true, interval⟩) := by
  simp [watchCycle, h]

theorem watchCycle_baseline (interval : Int) (st : WatchState) (inp : CycleInput)
    (posts : List Post) (h : inp.fetch = FetchOutcome.ok posts)
    (hfr : st.first_run = true) :
    watchCycle interval st inp =
      (⟨(posts.map Post.id).toFinset, false⟩, ⟨[], false, interval⟩) := by
  simp [watchCycle, h, hfr]

theorem watchCycle_steady (interval : Int) (st : WatchState) (inp : CycleInput)
    (posts : List Post) (h : inp.fetch = FetchOutcome.ok posts)
    (hfr : st.first_run = false) :
    watchCycle interval st inp =
      (⟨(dispatchReversed inp.handlerOk st.seen_ids
          ((posts.filter fun p => decide (p.id ∉ st.seen_ids)).reverse)).seen_ids, false⟩,
        ⟨(dispatchReversed inp.handlerOk st.seen_ids
            ((posts.filter fun p => decide (p.id ∉ st.seen_ids)).reverse)).events,
          (dispatchReversed inp.handlerOk st.seen_ids
            ((posts.filter fun p => decide (p.id ∉ st.seen_ids)).reverse)).raised,
          interval⟩) := by
  simp [watchCycle, h, hfr]

theorem watchRun_nil (interval : Int) (st : WatchState) :
    watchRun interval st [] = (st, []) := rfl

theorem watchRun_cons (interval : Int) (st : WatchState) (inp : CycleInput)
    (rest : List CycleInput) :
    watchRun interval st (inp :: rest) =
      ((watchRun interval (watchCycle interval st inp).1 rest).1,
        (watchCycle interval st inp).2 ::
          (watchRun interval (watchCycle interval st inp).1 rest).2) := rfl

/-- Invariant of reachable scheduler states: while `first_run` is still
`True` the SeenSet is still the empty set it was initialised to (the code
only clears `first_run` in the same branch that bulk-fills `seen_ids`). -/
def GoodState (st : WatchState) : Prop := st.first_run = true → st.seen_ids = ∅

theorem goodState_init : GoodState ⟨∅, true⟩ := fun _ => rfl

theorem watchCycle_good (interval : Int) (st : WatchState) (inp : CycleInput)
    (hg : GoodState st) : GoodState (watchCycle interval st inp).1 := by
  cases hf : inp.fetch with
  | err => rw [watchCycle_err interval st inp hf]; exact hg
  | ok posts =>
    cases hfr : st.first_run with
    | true =>
      rw [watchCycle_baseline interval st inp posts hf hfr]
      intro h; simp at h
    | false =>
      rw [watchCycle_steady interval st inp posts hf hfr]
      intro h; simp at h

theorem watchCycle_seen_mono (interval : Int) (st : WatchState) (inp : CycleInput)
    (hg : GoodState st) : st.seen_ids ⊆ (watchCycle interval st inp).1.seen_ids := by
  cases hf : inp.fetch with
  | err =>
    rw [watchCycle_err interval st inp hf]
  | ok posts =>
    cases hfr : st.first_run with
    | true =>
      rw [watchCycle_baseline interval st inp posts hf hfr, hg hfr]
      exact Finset.empty_subset _
    | false =>
      rw [watchCycle_steady interval st inp posts hf hfr]
      exact dispatchReversed_seen_mono inp.handlerOk _ st.seen_ids

theorem watchCycle_invoked_not_seen (interval : Int) (st : WatchState)
    (inp : CycleInput) (p : Post)
    (hp : p ∈ invokedPosts (watchCycle interval st inp).2.events) :
    p.id ∉ st.seen_ids := by
  cases hf : inp.fetch with
  | err => rw [watchCycle_err interval st inp hf] at hp; simp at hp
  | ok posts =>
    cases hfr : st.first_run with
    | true => rw [watchCycle_baseline interval st inp posts hf hfr] at hp; simp at hp
    | false =>
      rw [watchCycle_steady interval st inp posts hf hfr] at hp
      have hmem : p ∈ (posts.filter fun q => decide (q.id ∉ st.seen_ids)).reverse :=
        (dispatchReversed_invoked_sublist inp.handlerOk _ st.seen_ids).subset hp
      rw [List.mem_reverse] at hmem
      simpa using List.of_mem_filter hmem

theorem watchCycle_invoked_admitted (interval : Int) (st : WatchState)
    (inp : CycleInput) (p : Post)
    (hp : p ∈ invokedPosts (watchCycle interval st inp).2.events) :
    p.id ∈ (watchCycle interval st inp).1.seen_ids := by
  cases hf : inp.fetch with
  | err => rw [watchCycle_err interval st inp hf] at hp; simp at hp
  | ok posts =>
    cases hfr : st.first_run with
    | true => rw [watchCycle_baseline interval st inp posts hf hfr] at hp; simp at hp
    | false =>
      rw [watchCycle_steady interval st inp posts hf hfr] at hp ⊢
      exact dispatchReversed_invoked_admitted inp.handlerOk _ st.seen_ids p hp

theorem watchCycle_invoked_nodup (interval : Int) (st : WatchState) (inp : CycleInput)
    (h : ∀ posts, inp.fetch = FetchOutcome.ok posts → (posts.map Post.id).Nodup) :
    (invokedIds (watchCycle interval st inp).2.events).Nodup := by
  cases hf : inp.fetch with
  | err => rw [watchCycle_err interval st inp hf]; simp [invokedIds]
  | ok posts =>
    cases hfr : st.first_run with
    | true => rw [watchCycle_baseline interval st inp posts hf hfr]; simp [invokedIds]
    | false =>
      rw [watchCycle_steady interval st inp posts hf hfr]
      have hnodup : ((posts.filter fun q =>
          decide (q.id ∉ st.seen_ids)).reverse.map Post.id).Nodup := by
        rw [List.map_reverse, List.nodup_reverse]
        exact List.Nodup.sublist ((List.filter_sublist posts).map Post.id) (h posts hf)
      exact List.Nodup.sublist
        ((dispatchReversed_invoked_sublist inp.handlerOk _ st.seen_ids).map Post.id)
        hnodup

theorem watchCycle_invokedIds_not_seen (interval : Int) (st : WatchState)
    (inp : CycleInput) (s : String)
    (hs : s ∈ invokedIds (watchCycle interval st inp).2.events) :
    s ∉ st.seen_ids := by
  obtain ⟨p, hp, rfl⟩ := List.mem_map.mp hs
  exact watchCycle_invoked_not_seen interval st inp p hp

theorem watchCycle_invokedIds_admitted (interval : Int) (st : WatchState)
    (inp : CycleInput) (s : String)
    (hs : s ∈ invokedIds (watchCycle interval st inp).2.events) :
    s ∈ (watchCycle interval st inp).1.seen_ids := by
  obtain ⟨p, hp, rfl⟩ := List.mem_map.mp hs
  exact watchCycle_invoked_admitted interval st inp p hp

theorem watchRun_good (interval : Int) :
    ∀ (inputs : List CycleInput) (st : WatchState), GoodState st →
    GoodState (watchRun interval st inputs).1 := by
  intro inputs
  induction inputs with
  | nil => intro st hg; exact hg
  | cons inp rest ih =>
    intro st hg
    rw [watchRun_cons]
    exact ih (watchCycle interval st inp).1 (watchCycle_good interval st inp hg)

theorem watchRun_seen_mono (interval : Int) :
    ∀ (inputs : List CycleInput) (st : WatchState), GoodState st →
    st.seen_ids ⊆ (watchRun interval st inputs).1.seen_ids := by
  intro inputs
  induction inputs with
  | nil => intro st _; exact Finset.Subset.refl st.seen_ids
  | cons inp rest ih =>
    intro st hg
    rw [watchRun_cons]
    exact (watchCycle_seen_mono interval st inp hg).trans
      (ih (watchCycle interval st inp).1 (watchCycle_good interval st inp hg))

/-- Core dedup invariant of a run: under per-fetch uniqueness of
identifiers, the identifiers passed to the callback over the run are
pairwise distinct, none of them was in the SeenSet at the start of the
run, and all of them are in the SeenSet at the end. -/
theorem watchRun_invoked_invariant (interval : Int) :
    ∀ (inputs : List CycleInput) (st : WatchState), GoodState st →
    (∀ inp ∈ inputs, ∀ posts, inp.fetch = FetchOutcome.ok posts →
      (posts.map Post.id).Nodup) →
    (runInvokedIds (watchRun interval st inputs).2).Nodup ∧
      ∀ s ∈ runInvokedIds (watchRun interval st inputs).2,
        s ∉ st.seen_ids ∧ s ∈ (watchRun interval st inputs).1.seen_ids := by
  intro inputs
  induction inputs with
  | nil => intro st _ _; exact ⟨List.nodup_nil, fun s hs => absurd hs (by simp [watchRun_nil])⟩
  | cons inp rest ih =>
    intro st hg h
    have hg1 : GoodState (watchCycle interval st inp).1 :=
      watchCycle_good interval st inp hg
    obtain ⟨ihn, ihm⟩ := ih (watchCycle interval st inp).1 hg1
      (fun i hi => h i (List.mem_cons_of_mem inp hi))
    have hcyc : (invokedIds (watchCycle interval st inp).2.events).Nodup :=
      watchCycle_invoked_nodup interval st inp
        (h inp (List.mem_cons_self inp rest))
    rw [watchRun_cons]
    constructor
    · rw [runInvokedIds_cons, List.nodup_append]
      refine ⟨hcyc, ihn, ?_⟩
      intro s hs1 hs2
      exact (ihm s hs2).1 (watchCycle_invokedIds_admitted interval st inp s hs1)
    · intro s hs
      rw [runInvokedIds_cons, List.mem_append] at hs
      rcases hs with hs | hs
      · refine ⟨watchCycle_invokedIds_not_seen interval st inp s hs, ?_⟩
        exact watchRun_seen_mono interval rest (watchCycle interval st inp).1 hg1
          (watchCycle_invokedIds_admitted interval st inp s hs)
      · refine ⟨fun hmem => (ihm s hs).1 ?_, (ihm s hs).2⟩
        exact watchCycle_seen_mono interval st inp hg hmem

theorem watchRun_append (interval : Int) :
    ∀ (xs ys : List CycleInput) (st : WatchState),
    watchRun interval st (xs ++ ys) =
      ((watchRun interval (watchRun interval st xs).1 ys).1,
        (watchRun interval st xs).2 ++
          (watchRun interval (watchRun interval st xs).1 ys).2) := by
  intro xs
  induction xs with
  | nil => intro ys st; rfl
  | cons x rest ih =>
    intro ys st
    rw [List.cons_append, watchRun_cons, watchRun_cons, ih ys (watchCycle interval st x).1]
    simp

theorem watchRun_err_all (interval : Int) :
    ∀ (pre : List CycleInput) (st : WatchState),
    (∀ i ∈ pre, i.fetch = FetchOutcome.err) →
    watchRun interval st pre = (st, pre.map fun _ => ⟨[], true, interval⟩) := by
  intro pre
  induction pre with
  | nil => intro st _; rfl
  | cons i rest ih =>
    intro st h
    rw [watchRun_cons, watchCycle_err interval st i (h i (List.mem_cons_self i rest))]
    rw [ih st (fun j hj => h j (List.mem_cons_of_mem i hj))]
    rfl

/-- A poll-cycle input whose fetch succeeds and whose callback never
raises. -/
def okInput (posts : List Post) : CycleInput := ⟨FetchOutcome.ok posts, fun _ => true⟩

/-- A poll-cycle input whose fetch raises `FeedUnavailable`. -/
def errInput : CycleInput := ⟨FetchOutcome.err, fun _ => true⟩

/-- C1: over any run of poll cycles of one `watch_timeline` instance, if
identifiers are unique within each fetched feed window, then no identifier
is passed to the user-supplied callback more than once (the list of all
identifiers ever passed to the callback, in order, has no duplicates). -/
theorem watch_no_duplicate_delivery (interval : Int) (inputs : List CycleInput)
    (h : ∀ inp ∈ inputs, ∀ posts, inp.fetch = FetchOutcome.ok posts →
      (posts.map Post.id).Nodup) :
    (runInvokedIds (watch_timeline interval inputs).2).Nodup :=
  (watchRun_invoked_invariant interval inputs ⟨∅, true⟩ goodState_init h).1

/-- C1 witness: a two-cycle run whose second fetch repeats an identifier
from the first. -/
theorem watch_no_duplicate_delivery_witness :
    (runInvokedIds (watch_timeline 60
      [okInput [⟨"a"⟩], okInput [⟨"b"⟩, ⟨"a"⟩]]).2).Nodup :=
  watch_no_duplicate_delivery 60 [okInput [⟨"a"⟩], okInput [⟨"b"⟩, ⟨"a"⟩]]
    (by
      intro inp hi posts hp
      rcases List.mem_cons.mp hi with rfl | hi
      · simp only [okInput, FetchOutcome.ok.injEq] at hp
        subst hp; decide
      · rcases List.mem_singleton.mp hi with rfl
        simp only [okInput, FetchOutcome.ok.injEq] at hp
        subst hp; decide)

/-- C2: whatever failed cycles precede it, the first successful poll cycle
invokes no callback and logs no error, and immediately after it the
SeenSet is exactly the set of identifiers returned by that fetch. -/
theorem watch_baseline_suppression (interval : Int) (pre : List CycleInput)
    (inp : CycleInput) (posts : List Post) (rest : List CycleInput)
    (hpre : ∀ i ∈ pre, i.fetch = FetchOutcome.err)
    (hfetch : inp.fetch = FetchOutcome.ok posts) :
    (watchRun interval ⟨∅, true⟩ (pre ++ [inp])).1 =
      ⟨(posts.map Post.id).toFinset, false⟩ ∧
      (watch_timeline interval (pre ++ inp :: rest)).2[pre.length]? =
        some ⟨[], false, interval⟩ := by
  have hekeep : watchRun interval ⟨∅, true⟩ pre =
      (⟨∅, true⟩, pre.map fun _ => ⟨[], true, interval⟩) :=
    watchRun_err_all interval pre ⟨∅, true⟩ hpre
  constructor
  · rw [watchRun_append, hekeep]
    rw [watchRun_cons, watchCycle_baseline interval ⟨∅, true⟩ inp posts hfetch rfl]
    rfl
  · unfold watch_timeline
    rw [watchRun_append, hekeep]
    rw [watchRun_cons, watchCycle_baseline interval ⟨∅, true⟩ inp posts hfetch rfl]
    rw [List.getElem?_append_right (by simp)]
    simp

/-- C2 witness: one failed cycle, then a successful baseline fetch of one
item. -/
theorem watch_baseline_suppression_witness :
    (watchRun 60 ⟨∅, true⟩ ([errInput] ++ [okInput [⟨"a"⟩]])).1 =
      ⟨([⟨"a"⟩].map Post.id).toFinset, false⟩ ∧
      (watch_timeline 60 ([errInput] ++ okInput [⟨"a"⟩] :: [])).2[
        ([errInput] : List CycleInput).length]? = some ⟨[], false, 60⟩ :=
  watch_baseline_suppression 60 [errInput] (okInput [⟨"a"⟩]) [⟨"a"⟩] []
    (fun i hi => by rcases List.mem_singleton.mp hi with rfl; rfl) rfl

/-- C3: in a steady-state cycle whose callback never raises, the callback
is invoked once per novel item in the reverse (oldest-first) of the
fetched newest-first order; in particular, if the fetch returned `[B, A]`
with both novel, the callback receives `A` strictly before `B`. -/
theorem watch_order_preservation (interval : Int) (st : WatchState)
    (inp : CycleInput) (posts : List Post) (hfr : st.first_run = false)
    (hfetch : inp.fetch = FetchOutcome.ok posts)
    (hok : ∀ p, inp.handlerOk p = true) :
    invokedPosts (watchCycle interval st inp).2.events =
      (posts.filter fun p => decide (p.id ∉ st.seen_ids)).reverse ∧
      ∀ A B : Post, posts = [B, A] → A.id ∉ st.seen_ids → B.id ∉ st.seen_ids →
        invokedPosts (watchCycle interval st inp).2.events = [A, B] := by
  have hmain : invokedPosts (watchCycle interval st inp).2.events =
      (posts.filter fun p => decide (p.id ∉ st.seen_ids)).reverse := by
    rw [watchCycle_steady interval st inp posts hfetch hfr]
    exact dispatchReversed_all_ok inp.handlerOk hok _ st.seen_ids
  refine ⟨hmain, ?_⟩
  intro A B hBA hA hB
  subst hBA
  rw [hmain]
  simp [hA, hB]

/-- C3 witness: a steady cycle fetching `[B, A]` (newest-first) with both
novel dispatches `A` then `B`. -/
theorem watch_order_preservation_witness :
    invokedPosts (watchCycle 60 ⟨∅, false⟩ (okInput [⟨"b"⟩, ⟨"a"⟩])).2.events =
      [⟨"a"⟩, ⟨"b"⟩] :=
  (watch_order_preservation 60 ⟨∅, false⟩ (okInput [⟨"b"⟩, ⟨"a"⟩])
      [⟨"b"⟩, ⟨"a"⟩] rfl rfl (fun _ => rfl)).2 ⟨"a"⟩ ⟨"b"⟩ rfl
    (by simp) (by simp)

/-- C4: a cycle whose fetch fails changes nothing: the SeenSet and
first-run flag are passed unchanged to the next cycle, no admission and no
callback happens, the error is logged (not propagated), the cycle still
sleeps the normal fixed interval, and the rest of the run proceeds exactly
as if started from the same state. -/
theorem watch_cycle_isolation (interval : Int) (st : WatchState)
    (inp : CycleInput) (rest : List CycleInput)
    (h : inp.fetch = FetchOutcome.err) :
    watchRun interval st (inp :: rest) =
      ((watchRun interval st rest).1,
        ⟨[], true, interval⟩ :: (watchRun interval st rest).2) := by
  rw [watchRun_cons, watchCycle_err interval st inp h]

/-- C4 witness: a failing cycle followed by a successful one. -/
theorem watch_cycle_isolation_witness :
    watchRun 60 ⟨∅, true⟩ [errInput, okInput [⟨"a"⟩]] =
      ((watchRun 60 ⟨∅, true⟩ [okInput [⟨"a"⟩]]).1,
        ⟨[], true, 60⟩ :: (watchRun 60 ⟨∅, true⟩ [okInput [⟨"a"⟩]]).2) :=
  watch_cycle_isolation 60 ⟨∅, true⟩ errInput [okInput [⟨"a"⟩]] rfl

/-- C5 (code behaviour at the claimed scenario): in a steady cycle
fetching three novel items `[c, b, a]` (newest-first, so dispatch order is
`a`, `b`, `c`) whose callback raises on the middle item `b`, the callback
exception escapes the dispatch loop to the cycle-level handler: only `a`
and `b` are passed to the callback, `c` is neither invoked nor admitted to
the SeenSet in that cycle, and the error is logged.  This contradicts the
claim that the remaining items of the batch are still delivered and all
three identifiers admitted. -/
theorem watch_handler_failure_drops_rest :
    invokedPosts (watchCycle 60 ⟨∅, false⟩
        ⟨FetchOutcome.ok [⟨"c"⟩, ⟨"b"⟩, ⟨"a"⟩],
          fun p => decide (p.id ≠ "b")⟩).2.events = [⟨"a"⟩, ⟨"b"⟩] ∧
      (watchCycle 60 ⟨∅, false⟩
        ⟨FetchOutcome.ok [⟨"c"⟩, ⟨"b"⟩, ⟨"a"⟩],
          fun p => decide (p.id ≠ "b")⟩).2.errorLogged = true ∧
      "a" ∈ (watchCycle 60 ⟨∅, false⟩
        ⟨FetchOutcome.ok [⟨"c"⟩, ⟨"b"⟩, ⟨"a"⟩],
          fun p => decide (p.id ≠ "b")⟩).1.seen_ids ∧
      "b" ∈ (watchCycle 60 ⟨∅, false⟩
        ⟨FetchOutcome.ok [⟨"c"⟩, ⟨"b"⟩, ⟨"a"⟩],
          fun p => decide (p.id ≠ "b")⟩).1.seen_ids ∧
      "c" ∉ (watchCycle 60 ⟨∅, false⟩
        ⟨FetchOutcome.ok [⟨"c"⟩, ⟨"b"⟩, ⟨"a"⟩],
          fun p => decide (p.id ≠ "b")⟩).1.seen_ids := by
  decide

theorem watchRun_logs_length (interval : Int) :
    ∀ (inputs : List CycleInput) (st : WatchState),
    (watchRun interval st inputs).2.length = inputs.length := by
  intro inputs
  induction inputs with
  | nil => intro st; rfl
  | cons inp rest ih =>
    intro st
    rw [watchRun_cons]
    simp [ih (watchCycle interval st inp).1]

theorem watchRun_log_getD (interval : Int) :
    ∀ (inputs : List CycleInput) (st : WatchState) (i : Nat), i < inputs.length →
    (watchRun interval st inputs).2.getD i ⟨[], false, interval⟩ =
      (watchCycle interval (watchRun interval st (inputs.take i)).1
        (inputs.getD i default)).2 := by
  intro inputs
  induction inputs with
  | nil => intro st i hi; simp at hi
  | cons inp rest ih =>
    intro st i hi
    cases i with
    | zero => rfl
    | succ j =>
      rw [watchRun_cons]
      simp only [List.getD_cons_succ, List.take_succ_cons]
      rw [ih (watchCycle interval st inp).1 j (by simpa using hi), watchRun_cons]

theorem watchRun_state_take_succ (interval : Int) :
    ∀ (inputs : List CycleInput) (st : WatchState) (i : Nat), i < inputs.length →
    (watchRun interval st (inputs.take (i + 1))).1 =
      (watchCycle interval (watchRun interval st (inputs.take i)).1
        (inputs.getD i default)).1 := by
  intro inputs
  induction inputs with
  | nil => intro st i hi; simp at hi
  | cons inp rest ih =>
    intro st i hi
    cases i with
    | zero => rfl
    | succ j =>
      simp only [List.getD_cons_succ, List.take_succ_cons]
      rw [watchRun_cons, watchRun_cons]
      exact ih (watchCycle interval st inp).1 j (by simpa using hi)

theorem goodState_stateAfter (interval : Int) (inputs : List CycleInput) (n : Nat) :
    GoodState (stateAfter interval inputs n) :=
  watchRun_good interval (inputs.take n) ⟨∅, true⟩ goodState_init

theorem stateAfter_seen_mono (interval : Int) (inputs : List CycleInput)
    (m n : Nat) (h : m ≤ n) :
    (stateAfter interval inputs m).seen_ids ⊆ (stateAfter interval inputs n).seen_ids := by
  have hsplit : inputs.take n = inputs.take m ++ (inputs.drop m).take (n - m) := by
    conv_lhs => rw [← Nat.add_sub_cancel' h]
    exact List.take_add inputs m (n - m)
  unfold stateAfter
  rw [hsplit, watchRun_append]
  exact watchRun_seen_mono interval ((inputs.drop m).take (n - m))
    (watchRun interval ⟨∅, true⟩ (inputs.take m)).1
    (watchRun_good interval (inputs.take m) ⟨∅, true⟩ goodState_init)

theorem cycleLogAt_lt (interval : Int) (inputs : List CycleInput) (i : Nat)
    (hi : i < inputs.length) :
    cycleLogAt interval inputs i =
      (watchCycle interval (stateAfter interval inputs i) (inputs.getD i default)).2 :=
  watchRun_log_getD interval inputs ⟨∅, true⟩ i hi

theorem cycleLogAt_ge (interval : Int) (inputs : List CycleInput) (i : Nat)
    (hi : inputs.length ≤ i) :
    cycleLogAt interval inputs i = ⟨[], false, interval⟩ := by
  unfold cycleLogAt watch_timeline
  exact List.getD_eq_default _ _ (by rwa [watchRun_logs_length])

theorem stateAfter_succ_eq (interval : Int) (inputs : List CycleInput) (i : Nat)
    (hi : i < inputs.length) :
    stateAfter interval inputs (i + 1) =
      (watchCycle interval (stateAfter interval inputs i) (inputs.getD i default)).1 :=
  watchRun_state_take_succ interval inputs ⟨∅, true⟩ i hi

theorem watchCycle_admit_before_invoke (interval : Int) (st : WatchState)
    (inp : CycleInput) (l1 : List DispatchEvent) (p : Post)
    (l2 : List DispatchEvent)
    (h : (watchCycle interval st inp).2.events = l1 ++ DispatchEvent.invoke p :: l2) :
    DispatchEvent.admitId p.id ∈ l1 := by
  cases hf : inp.fetch with
  | err =>
    rw [watchCycle_err interval st inp hf] at h
    cases l1 <;> simp at h
  | ok posts =>
    cases hfr : st.first_run with
    | true =>
      rw [watchCycle_baseline interval st inp posts hf hfr] at h
      cases l1 <;> simp at h
    | false =>
      rw [watchCycle_steady interval st inp posts hf hfr] at h
      exact dispatchReversed_admit_before_invoke inp.handlerOk _ st.seen_ids l1 p l2 h

/-- C9: whenever the callback is invoked on a post, the post identifier
was admitted to the SeenSet strictly before that invocation (an `admit` of
its id occurs earlier in the cycle's event sequence); consequently — even
when that callback invocation raises — the post is never passed to the
callback again in any later cycle of the same run. -/
theorem watch_admit_precedes_invoke (interval : Int) (inputs : List CycleInput) :
    (∀ (i : Nat) (l1 : List DispatchEvent) (p : Post) (l2 : List DispatchEvent),
        (cycleLogAt interval inputs i).events = l1 ++ DispatchEvent.invoke p :: l2 →
        DispatchEvent.admitId p.id ∈ l1) ∧
      ∀ (i j : Nat) (p : Post), i < j →
        p ∈ invokedPosts (cycleLogAt interval inputs i).events →
        p ∉ invokedPosts (cycleLogAt interval inputs j).events := by
  constructor
  · intro i l1 p l2 h
    by_cases hi : i < inputs.length
    · rw [cycleLogAt_lt interval inputs i hi] at h
      exact watchCycle_admit_before_invoke interval _ _ l1 p l2 h
    · rw [cycleLogAt_ge interval inputs i (le_of_not_lt hi)] at h
      cases l1 <;> simp at h
  · intro i j p hij hpi hpj
    by_cases hj : j < inputs.length
    · by_cases hi : i < inputs.length
      · rw [cycleLogAt_lt interval inputs i hi] at hpi
        rw [cycleLogAt_lt interval inputs j hj] at hpj
        have h1 : p.id ∈ (stateAfter interval inputs (i + 1)).seen_ids := by
          rw [stateAfter_succ_eq interval inputs i hi]
          exact watchCycle_invoked_admitted interval _ _ p hpi
        have h2 : p.id ∉ (stateAfter interval inputs j).seen_ids :=
          watchCycle_invoked_not_seen interval _ _ p hpj
        exact h2 (stateAfter_seen_mono interval inputs (i + 1) j hij h1)
      · rw [cycleLogAt_ge interval inputs i (le_of_not_lt hi)] at hpi
        simp at hpi
    · rw [cycleLogAt_ge interval inputs j (le_of_not_lt hj)] at hpj
      simp at hpj

/-- Inputs of a three-cycle run: baseline, then two overlapping windows. -/
def threeCycleInputs : List CycleInput :=
  [okInput [⟨"x"⟩], okInput [⟨"y"⟩, ⟨"x"⟩], okInput [⟨"y"⟩, ⟨"z"⟩]]

/-- C9 witness: in the three-cycle run, the item delivered in cycle 1 had
its admit event before its invoke event, and is not delivered again in
cycle 2. -/
theorem watch_admit_precedes_invoke_witness :
    DispatchEvent.admitId "y" ∈ [DispatchEvent.admitId "y"] ∧
      Post.mk "y" ∉ invokedPosts (cycleLogAt 60 threeCycleInputs 2).events :=
  ⟨(watch_admit_precedes_invoke 60 threeCycleInputs).1 1 [DispatchEvent.admitId "y"]
      ⟨"y"⟩ [] (by decide),
    (watch_admit_precedes_invoke 60 threeCycleInputs).2 1 2 ⟨"y"⟩ (by norm_num)
      (by decide)⟩

end Uwuzu
